import Mathlib

/-!
Verification of the Streamlit association-rule-mining dashboard
(src/index.py) against its specification.

The file shallowly embeds the module-level pipeline of src/index.py:
a dataframe of cell values, the Age Group binning (pd.cut), the
one-hot binarization `preprocess_data`, and the control flow of the
mining section.  The mining routines themselves (mlxtend's `apriori`
and `association_rules`) are external library calls whose code is not
part of the repository; they are modelled from the specification's
contracts (each such definition says so in its doc comment).
-/

/-- A dataframe cell as it exists after pandas `read_csv`: a numeric
value (modelled as an exact rational), a missing value (NaN), or a
non-numeric value such as a string label. -/
inductive Value where
  | num (q : ℚ)
  | nan
  | str (s : String)
deriving DecidableEq, Repr

/-- A pandas dataframe: named columns and rows of cells.  Row `r`'s
cell for column `j` is `r.getD j Value.nan`. -/
structure DataFrame where
  cols : List String
  rows : List (List Value)
deriving DecidableEq, Repr

/-- `pd.to_numeric(·, errors="coerce")` cell-wise (src/index.py line
146): numeric values survive, everything non-convertible becomes NaN. -/
def to_numeric (v : Value) : Value :=
  match v with
  | .num q => .num q
  | _ => .nan

/-- `df.fillna(0)` cell-wise (src/index.py line 149). -/
def fillZero (v : Value) : Value :=
  match v with
  | .nan => .num 0
  | v => v

/-- The Python test `x > 0` on a cell (src/index.py line 152); `NaN > 0`
is false in pandas.  After `to_numeric` + `fillna(0)` every cell is
numeric, so the string case is unreachable there. -/
def gtZero (v : Value) : Bool :=
  match v with
  | .num q => decide (0 < q)
  | _ => false

/-- `preprocess_data` (src/index.py lines 139-154): coerce every cell
to numeric (non-convertible cells become NaN), fill NaN with 0, then
map every cell to 1 if strictly positive and 0 otherwise. -/
def preprocess_data (df : DataFrame) : DataFrame :=
  let coerced := df.rows.map (fun r => r.map to_numeric)
  let filled := coerced.map (fun r => r.map fillZero)
  let binary := filled.map (fun r => r.map (fun x => if gtZero x then Value.num 1 else Value.num 0))
  { cols := df.cols, rows := binary }

/-- The per-cell composite of the three stages of `preprocess_data`. -/
def encodeCell (v : Value) : Value :=
  if gtZero (fillZero (to_numeric v)) then Value.num 1 else Value.num 0

/-- Spec wording (§4.1/§8): a cell is encoded 1 exactly when the source
value is numeric and strictly greater than zero. -/
def posNum (v : Value) : Bool :=
  match v with
  | .num q => decide (0 < q)
  | _ => false

/-- Spec wording: the encoding the claim describes, to be compared with
the code's `preprocess_data`. -/
def specEncode (v : Value) : Value :=
  if posNum v then Value.num 1 else Value.num 0

/-- A dataframe all of whose cells are already the numerals 0 or 1. -/
def isBinaryDf (df : DataFrame) : Bool :=
  df.rows.all (fun r => r.all (fun v => v == Value.num 0 || v == Value.num 1))

theorem encodeCell_eq_specEncode (v : Value) : encodeCell v = specEncode v := by
  cases v <;> rfl

theorem preprocess_rows (df : DataFrame) :
    (preprocess_data df).rows = df.rows.map (fun r => r.map encodeCell) := by
  simp only [preprocess_data, List.map_map]
  refine List.map_congr_left (fun r _ => ?_)
  simp only [Function.comp, List.map_map]
  exact List.map_congr_left (fun v _ => rfl)

theorem encodeCell_idem (v : Value) : encodeCell (encodeCell v) = encodeCell v := by
  cases v with
  | num q =>
    by_cases h : 0 < q
    · simp [encodeCell, to_numeric, fillZero, gtZero, h]
    · simp [encodeCell, to_numeric, fillZero, gtZero, h]
  | nan => rfl
  | str s => rfl

/-- The errors a pipeline run can end with: the `InvalidParameterError`
of the spec's taxonomy (§7) raised by the mining calls, and the pandas
`TypeError` that `pd.cut` raises when the binned column holds a
non-numeric value.  Neither is caught anywhere in src/index.py. -/
inductive MiningError where
  | invalidParameter
  | typeError
deriving DecidableEq, Repr

/-- The bin label `pd.cut(·, bins=[0, 18, 30, 45, 60, 100],
labels=["0-18", "19-30", "31-45", "46-60", "60+"])` assigns to one
numeric (or missing) cell: right-closed intervals; an age outside every
bin, and NaN, stay NaN. -/
def ageCutVal (v : Value) : Value :=
  match v with
  | .num q =>
    if 0 < q ∧ q ≤ 18 then .str ("0-18")
    else if 18 < q ∧ q ≤ 30 then .str ("19-30")
    else if 30 < q ∧ q ≤ 45 then .str ("31-45")
    else if 45 < q ∧ q ≤ 60 then .str ("46-60")
    else if 60 < q ∧ q ≤ 100 then .str ("60+")
    else .nan
  | _ => .nan

/-- `pd.cut` applied to one cell (src/index.py lines 122-123): a
numeric cell gets its bin label and a missing cell stays NaN, but a
non-numeric cell (e.g. a string) raises a `TypeError` when pandas
compares it against the bin edges — the value is not coerced. -/
def ageCut (v : Value) : Except MiningError Value :=
  match v with
  | .str _ => .error .typeError
  | v => .ok (ageCutVal v)

/-- Row-by-row fallible transformation of a dataframe's rows: the first
raising row aborts the whole (vectorized) column operation. -/
def mapOrErr (f : List Value → Except MiningError (List Value)) :
    List (List Value) → Except MiningError (List (List Value))
  | [] => .ok []
  | r :: rs =>
    match f r, mapOrErr f rs with
    | .ok v, .ok vs => .ok (v :: vs)
    | .error e, _ => .error e
    | .ok _, .error e => .error e

/-- Pandas column assignment `df[name] = f(row)` where computing the
new cell may raise: replaces the column in place when it exists,
otherwise appends it on the right; any raising row aborts the
assignment. -/
def setCol (df : DataFrame) (name : String)
    (f : List Value → Except MiningError Value) : Except MiningError DataFrame :=
  if df.cols.contains name then
    (mapOrErr (fun r => (f r).map (fun v => r.set (List.indexOf name df.cols) v)) df.rows).map
      (fun rows => DataFrame.mk df.cols rows)
  else
    (mapOrErr (fun r => (f r).map (fun v => r ++ [v])) df.rows).map
      (fun rows => DataFrame.mk (df.cols ++ [name]) rows)

/-- `data["Age Group"] = pd.cut(data["Age"], ...)` (src/index.py line
122): derive the categorical Age Group column from the Age column;
raises `TypeError` when an Age cell is non-numeric. -/
def addAgeGroup (df : DataFrame) : Except MiningError DataFrame :=
  setCol df ("Age Group") (fun r => ageCut (r.getD (List.indexOf ("Age") df.cols) Value.nan))

/-- The dataset that reaches `preprocess_data`: the Age Group column is
added inside the `if "Age" in data.columns` block (src/index.py lines
119-130) and the mutated `data` is what line 157 preprocesses; an Age
column holding a non-numeric value makes this step raise. -/
def prepareData (df : DataFrame) : Except MiningError DataFrame :=
  if df.cols.contains ("Age") then addAgeGroup df else .ok df

/-- A preprocessed dataframe as the numeric matrix the miner consumes. -/
def valueToRat (v : Value) : ℚ :=
  match v with
  | .num q => q
  | _ => 0

/-- The basket matrix handed to `apriori` (rows of 0/1 rationals). -/
def toMatrix (df : DataFrame) : List (List ℚ) :=
  df.rows.map (fun r => r.map valueToRat)

/-- Division on ℚ in a form the kernel evaluates (`Rat.div` itself is
irreducible); `qdiv_eq` identifies it with `·/·`. -/
def qdiv (a b : ℚ) : ℚ := Rat.divInt (a.num * b.den) (a.den * b.num)

/-- Multiplication on ℚ in a kernel-evaluable form; see `qmul_eq`. -/
def qmul (a b : ℚ) : ℚ := Rat.divInt (a.num * b.num) (a.den * b.den)

/-- Subtraction on ℚ in a kernel-evaluable form; see `qsub_eq`. -/
def qsub (a b : ℚ) : ℚ := Rat.divInt (a.num * b.den - b.num * a.den) (a.den * b.den)

theorem num_eq_mul_den (a : ℚ) : (a.num : ℚ) = a * a.den := by
  have had : (a.den : ℚ) ≠ 0 := by positivity
  exact (div_eq_iff had).mp (Rat.num_div_den a)

theorem qdiv_eq (a b : ℚ) : qdiv a b = a / b := by
  rcases eq_or_ne b 0 with hb | hb
  · subst hb
    simp [qdiv, Rat.divInt_eq_div]
  · have had : (a.den : ℚ) ≠ 0 := by positivity
    have hbn' : (b.num : ℚ) ≠ 0 := Int.cast_ne_zero.mpr (Rat.num_ne_zero.mpr hb)
    rw [qdiv, Rat.divInt_eq_div]
    push_cast
    rw [div_eq_div_iff (mul_ne_zero had hbn') hb, num_eq_mul_den a, num_eq_mul_den b]
    ring

theorem qmul_eq (a b : ℚ) : qmul a b = a * b := by
  have had : (a.den : ℚ) ≠ 0 := by positivity
  have hbd : (b.den : ℚ) ≠ 0 := by positivity
  rw [qmul, Rat.divInt_eq_div]
  push_cast
  rw [div_eq_iff (mul_ne_zero had hbd), num_eq_mul_den a, num_eq_mul_den b]
  ring

theorem qsub_eq (a b : ℚ) : qsub a b = a - b := by
  have had : (a.den : ℚ) ≠ 0 := by positivity
  have hbd : (b.den : ℚ) ≠ 0 := by positivity
  rw [qsub, Rat.divInt_eq_div]
  push_cast
  rw [div_eq_iff (mul_ne_zero had hbd), num_eq_mul_den a, num_eq_mul_den b]
  ring

/-- A transaction (row) contains an itemset when every item's presence
flag in the row is 1. -/
def rowHas (row : List ℚ) (s : Finset ℕ) : Bool :=
  decide (∀ i ∈ s, row.getD i 0 = 1)

/-- Support of an itemset (glossary: fraction of transactions
containing it); the itemsets are sets of column indices. -/
def support (m : List (List ℚ)) (s : Finset ℕ) : ℚ :=
  qdiv (m.countP (fun row => rowHas row s) : ℚ) (m.length : ℚ)

theorem support_eq_div (m : List (List ℚ)) (s : Finset ℕ) :
    support m s = (m.countP (fun row => rowHas row s) : ℚ) / (m.length : ℚ) :=
  qdiv_eq _ _

/-- The elements of a multiset in ascending order, via insertion sort
(structural recursion, so concrete instances evaluate). -/
def ascList (m : Multiset ℕ) : List ℕ :=
  Quotient.liftOn m (fun l => List.insertionSort (· ≤ ·) l) (fun a b h =>
    List.eq_of_perm_of_sorted
      ((List.perm_insertionSort _ a).trans (h.trans (List.perm_insertionSort _ b).symm))
      (List.sorted_insertionSort _ a) (List.sorted_insertionSort _ b))

/-- The elements of an itemset in ascending order (the spec's
deterministic column ordering, §4.1). -/
def ascElems (s : Finset ℕ) : List ℕ :=
  ascList s.val

theorem coe_ascList (m : Multiset ℕ) : (ascList m : Multiset ℕ) = m :=
  Quotient.inductionOn m (fun l => Quotient.sound (List.perm_insertionSort _ l))

theorem sorted_ascList (m : Multiset ℕ) : (ascList m).Sorted (· ≤ ·) :=
  Quotient.inductionOn m (fun l => List.sorted_insertionSort _ l)

theorem ascElems_eq_sort (s : Finset ℕ) : ascElems s = s.sort (· ≤ ·) :=
  List.eq_of_perm_of_sorted
    (Multiset.coe_eq_coe.mp ((coe_ascList s.val).trans (Finset.sort_eq (· ≤ ·) s).symm))
    (sorted_ascList s.val) (Finset.sort_sorted (· ≤ ·) s)

/-- All subsets of a finite set of column indices, enumerated as the
sublists of its sorted element list (a computable stand-in for the
powerset). -/
def subsetsOfFinset (s : Finset ℕ) : List (Finset ℕ) :=
  ((ascElems s).sublists).map (fun l => l.toFinset)

/-- Modelled from the spec: the frequent-itemset miner delegated to
`mlxtend.frequent_patterns.apriori` (src/index.py line 164), whose code
is not in the repository.  Spec §4.2: given a Basket Matrix and a
minimum support threshold, return every itemset whose support is at
least the threshold; a threshold of 0 or negative fails with
`InvalidParameterError`.  `n` is the column count of the matrix. -/
def apriori (m : List (List ℚ)) (n : ℕ) (minSupport : ℚ) :
    Except MiningError (List (Finset ℕ × ℚ)) :=
  if minSupport ≤ 0 then .error .invalidParameter
  else
    .ok (((subsetsOfFinset (Finset.range n)).filter
      (fun s => decide (s.Nonempty ∧ minSupport ≤ support m s))).map
        (fun s => (s, support m s)))

/-- An association rule with the five metric columns mlxtend reports
and the spec names (§4.3). -/
structure Rule where
  antecedent : Finset ℕ
  consequent : Finset ℕ
  support : ℚ
  confidence : ℚ
  lift : ℚ
  leverage : ℚ
  conviction : ℚ
deriving DecidableEq, Inhabited

/-- The support recorded for an itemset in the mined collection (0 when
the itemset is absent). -/
def supOf (L : List (Finset ℕ × ℚ)) (s : Finset ℕ) : ℚ :=
  ((L.find? (fun p => decide (p.1 = s))).map (fun p => p.2)).getD 0

/-- Build one rule from an antecedent, its complementary consequent and
the originating itemset's own support, computing the five metrics from
the mined supports (spec §4.3 and §3). -/
def mkRule (L : List (Finset ℕ × ℚ)) (A C : Finset ℕ) (supAC : ℚ) : Rule :=
  let sa := supOf L A
  let sc := supOf L C
  let conf := qdiv supAC sa
  { antecedent := A
    consequent := C
    support := supAC
    confidence := conf
    lift := qdiv conf sc
    leverage := qsub supAC (qmul sa sc)
    conviction := qdiv (qsub 1 sc) (qsub 1 conf) }

/-- The five metric names the spec's rule-generator contract recognizes
(§4.3). -/
def validMetrics : List String :=
  ["support", "confidence", "lift", "leverage", "conviction"]

/-- The metric column of a rule selected by name. -/
def metricValue (r : Rule) (metric : String) : ℚ :=
  if metric = "support" then r.support
  else if metric = "confidence" then r.confidence
  else if metric = "lift" then r.lift
  else if metric = "leverage" then r.leverage
  else if metric = "conviction" then r.conviction
  else 0

/-- Modelled from the spec: the thresholds valid for each metric.
Spec §4.3 fails a "threshold ... outside a metric's valid range (e.g.,
confidence/lift metrics expect threshold ≥ 0)"; support, confidence and
lift are nonnegative quantities (§3: support ∈ [0,1], confidence ∈
[0,1], lift ≥ 0), so their thresholds must be nonnegative; the spec
states no range for leverage or conviction. -/
def thresholdOk (metric : String) (threshold : ℚ) : Bool :=
  if metric = "support" || metric = "confidence" || metric = "lift" then
    decide (0 ≤ threshold)
  else true

/-- Modelled from the spec: the rule generator delegated to
`mlxtend.frequent_patterns.association_rules` (src/index.py line 176),
whose code is not in the repository.  Spec §4.3: for every frequent
itemset of size at least 2, every non-empty proper subset is a
candidate antecedent with the complement as consequent; the metrics are
computed from the itemsets' supports; a rule is kept when the selected
metric meets the threshold; a metric name outside the five recognized
values, or a threshold outside the metric's valid range, fails with
`InvalidParameterError`. -/
def association_rules (L : List (Finset ℕ × ℚ)) (metric : String) (threshold : ℚ) :
    Except MiningError (List Rule) :=
  if validMetrics.contains metric then
    if thresholdOk metric threshold then
      .ok (((L.filter (fun p => decide (2 ≤ p.1.card))).flatMap
        (fun p => ((subsetsOfFinset p.1).filter
          (fun A => decide (A.Nonempty ∧ A ≠ p.1))).map
            (fun A => mkRule L A (p.1 \ A) p.2))).filter
              (fun r => decide (threshold ≤ metricValue r metric)))
    else .error .invalidParameter
  else .error .invalidParameter

/-- The mining section's composition (src/index.py lines 163-176):
mine the frequent itemsets, then derive the rules from them. -/
def mineRules (m : List (List ℚ)) (n : ℕ) (minSupport : ℚ)
    (metric : String) (threshold : ℚ) : Except MiningError (List Rule) :=
  match apriori m n minSupport with
  | .error e => .error e
  | .ok L => association_rules L metric threshold

/-- The three metric names the sidebar selectbox offers (src/index.py
line 169). -/
def uiMetrics : List String := ["support", "confidence", "lift"]

/-- What one run of the upload branch produces (src/index.py lines
99-200): the Sex/Age warnings, the binarized basket dataframe, the
frequent-itemset table and the rule table. -/
structure RunOutput where
  sexWarning : Bool
  ageWarning : Bool
  basket : DataFrame
  itemsets : List (Finset ℕ × ℚ)
  rules : List Rule
deriving DecidableEq

/-- The module-level pipeline of src/index.py (lines 99-200) for one
uploaded dataframe and one setting of the sidebar controls: warn when
Sex or Age is absent (the run continues either way), bin Age Group when
Age is present (which raises on a non-numeric Age cell), binarize with
`preprocess_data`, mine with `apriori`, derive rules with
`association_rules`.  No call is wrapped in a handler: an error raised
by the binning or by a mining call is the run's result. -/
def runPipeline (df : DataFrame) (minSupport : ℚ) (metric : String)
    (threshold : ℚ) : Except MiningError RunOutput :=
  let sexWarning := ! df.cols.contains ("Sex")
  let ageWarning := ! df.cols.contains ("Age")
  match prepareData df with
  | .error e => .error e
  | .ok data =>
    let pre := preprocess_data data
    match apriori (toMatrix pre) pre.cols.length minSupport with
    | .error e => .error e
    | .ok fis =>
      match association_rules fis metric threshold with
      | .error e => .error e
      | .ok rs =>
        .ok { sexWarning := sexWarning, ageWarning := ageWarning,
              basket := pre, itemsets := fis, rules := rs }

deriving instance DecidableEq for Except

theorem mem_subsetsOfFinset {A s : Finset ℕ} : A ∈ subsetsOfFinset s ↔ A ⊆ s := by
  constructor
  · intro h
    simp only [subsetsOfFinset, List.mem_map] at h
    obtain ⟨l, hl, rfl⟩ := h
    rw [List.mem_sublists] at hl
    intro x hx
    rw [List.mem_toFinset] at hx
    have hxs := hl.subset hx
    rw [ascElems_eq_sort, Finset.mem_sort] at hxs
    exact hxs
  · intro hAs
    simp only [subsetsOfFinset, List.mem_map]
    refine ⟨A.sort (· ≤ ·), ?_, Finset.sort_toFinset _ _⟩
    rw [List.mem_sublists, ascElems_eq_sort]
    refine List.sublist_of_subperm_of_sorted ?_ (Finset.sort_sorted _ _) (Finset.sort_sorted _ _)
    refine (Finset.sort_nodup _ _).subperm (fun x hx => ?_)
    rw [Finset.mem_sort] at hx
    rw [Finset.mem_sort]
    exact hAs hx

theorem apriori_pos {m : List (List ℚ)} {n : ℕ} {σ : ℚ} (h : 0 < σ) :
    apriori m n σ = .ok (((subsetsOfFinset (Finset.range n)).filter
      (fun s => decide (s.Nonempty ∧ σ ≤ support m s))).map (fun s => (s, support m s))) := by
  rw [apriori, if_neg (not_le.mpr h)]

theorem apriori_ok_pos {m : List (List ℚ)} {n : ℕ} {σ : ℚ} {L : List (Finset ℕ × ℚ)}
    (hok : apriori m n σ = .ok L) : 0 < σ := by
  by_contra hσ
  rw [apriori, if_pos (not_lt.mp hσ)] at hok
  cases hok

theorem mem_apriori {m : List (List ℚ)} {n : ℕ} {σ : ℚ} {L : List (Finset ℕ × ℚ)}
    (hok : apriori m n σ = .ok L) (p : Finset ℕ × ℚ) :
    p ∈ L ↔ (p.2 = support m p.1 ∧ p.1 ⊆ Finset.range n ∧ p.1.Nonempty ∧ σ ≤ support m p.1) := by
  have hσ := apriori_ok_pos hok
  rw [apriori_pos hσ] at hok
  cases hok
  simp only [List.mem_map, List.mem_filter, mem_subsetsOfFinset, decide_eq_true_eq]
  constructor
  · rintro ⟨s, ⟨hsub, hne, hsup⟩, rfl⟩
    exact ⟨rfl, hsub, hne, hsup⟩
  · rintro ⟨hval, hsub, hne, hsup⟩
    refine ⟨p.1, ⟨hsub, hne, hsup⟩, ?_⟩
    rw [← hval]

theorem support_mono (m : List (List ℚ)) {A B : Finset ℕ} (hAB : A ⊆ B) :
    support m B ≤ support m A := by
  rw [support_eq_div, support_eq_div]
  rcases Nat.eq_zero_or_pos m.length with h0 | hpos
  · rw [h0]
    simp
  · have hlen : (0 : ℚ) < (m.length : ℚ) := by exact_mod_cast hpos
    rw [div_le_div_iff_of_pos_right hlen]
    have hcount : m.countP (fun row => rowHas row B) ≤ m.countP (fun row => rowHas row A) := by
      refine List.countP_mono_left (fun row _ hB => ?_)
      rw [rowHas, decide_eq_true_eq] at hB
      rw [rowHas, decide_eq_true_eq]
      exact fun i hi => hB i (hAB hi)
    exact_mod_cast hcount

theorem supOf_eq {m : List (List ℚ)} {L : List (Finset ℕ × ℚ)}
    (hall : ∀ p ∈ L, p.2 = support m p.1) {A : Finset ℕ} (hmem : ∃ q, (A, q) ∈ L) :
    supOf L A = support m A := by
  induction L with
  | nil =>
    obtain ⟨q, hq⟩ := hmem
    cases hq
  | cons h t ih =>
    by_cases hh : h.1 = A
    · rw [supOf, List.find?_cons_of_pos _ (by rw [decide_eq_true_eq]; exact hh)]
      have hv := hall h (List.mem_cons_self h t)
      show h.2 = support m A
      rw [hv, hh]
    · rw [supOf, List.find?_cons_of_neg _ (by rw [decide_eq_true_eq]; exact hh)]
      have hmem' : ∃ q, (A, q) ∈ t := by
        obtain ⟨q, hq⟩ := hmem
        rcases List.mem_cons.mp hq with heq | ht
        · exact absurd (congrArg Prod.fst heq.symm) hh
        · exact ⟨q, ht⟩
      exact ih (fun p hp => hall p (List.mem_cons_of_mem h hp)) hmem'

theorem thresholdOk_of_nonneg {metric : String} {θ : ℚ} (h : 0 ≤ θ) :
    thresholdOk metric θ = true := by
  rw [thresholdOk]
  split_ifs
  · exact decide_eq_true h
  · rfl

theorem association_rules_of_valid {L : List (Finset ℕ × ℚ)} {metric : String} {θ : ℚ}
    (h : validMetrics.contains metric = true) (ht : thresholdOk metric θ = true) :
    association_rules L metric θ =
      .ok (((L.filter (fun p => decide (2 ≤ p.1.card))).flatMap
        (fun p => ((subsetsOfFinset p.1).filter
          (fun A => decide (A.Nonempty ∧ A ≠ p.1))).map
            (fun A => mkRule L A (p.1 \ A) p.2))).filter
              (fun r => decide (θ ≤ metricValue r metric))) := by
  rw [association_rules, if_pos h, if_pos ht]

theorem association_rules_ok_valid {L : List (Finset ℕ × ℚ)} {metric : String} {θ : ℚ}
    {R : List Rule} (hok : association_rules L metric θ = .ok R) :
    validMetrics.contains metric = true ∧ thresholdOk metric θ = true := by
  by_cases hc : validMetrics.contains metric = true
  · by_cases ht : thresholdOk metric θ = true
    · exact ⟨hc, ht⟩
    · rw [association_rules, if_pos hc, if_neg ht] at hok
      cases hok
  · rw [association_rules, if_neg hc] at hok
    cases hok

theorem mem_association_rules {L : List (Finset ℕ × ℚ)} {metric : String} {θ : ℚ}
    {R : List Rule} (hok : association_rules L metric θ = .ok R) {r : Rule} (hr : r ∈ R) :
    ∃ p ∈ L, ∃ A : Finset ℕ, A ⊆ p.1 ∧ A.Nonempty ∧ A ≠ p.1 ∧
      r = mkRule L A (p.1 \ A) p.2 := by
  obtain ⟨hc, ht⟩ := association_rules_ok_valid hok
  rw [association_rules_of_valid hc ht] at hok
  cases hok
  have hr' := (List.mem_filter.mp hr).1
  obtain ⟨p, hp, hrp⟩ := List.mem_flatMap.mp hr'
  obtain ⟨A, hA, hmk⟩ := List.mem_map.mp hrp
  have hpL := (List.mem_filter.mp hp).1
  have hA' := List.mem_filter.mp hA
  have hAsub := mem_subsetsOfFinset.mp hA'.1
  have hAcond := decide_eq_true_eq.mp hA'.2
  exact ⟨p, hpL, A, hAsub, hAcond.1, hAcond.2, hmk.symm⟩

/-- `st.write(rules)` (src/index.py line 177): the rule table is
displayed whole and unchanged — every row, every metric column. -/
def displayedRules (rules : List Rule) : List Rule := rules

/-- `st.write(frequent_itemsets)` (src/index.py line 165): the
frequent-itemset table is displayed whole and unchanged. -/
def displayedItemsets (L : List (Finset ℕ × ℚ)) : List (Finset ℕ × ℚ) := L

/-- The network diagram (src/index.py lines 182-186): one directed edge
per rule, weighted by the rule's stored value of the chosen metric. -/
def graphEdges (rules : List Rule) (metric : String) : List (Finset ℕ × Finset ℕ × ℚ) :=
  rules.map (fun r => (r.antecedent, r.consequent, metricValue r metric))

/-- What the reporting section of the run shows, assembled from the
pipeline output (src/index.py lines 165, 177, 182-196). -/
def reportView (out : RunOutput) (metric : String) :
    List Rule × List (Finset ℕ × ℚ) × List (Finset ℕ × Finset ℕ × ℚ) :=
  (displayedRules out.rules, displayedItemsets out.itemsets, graphEdges out.rules metric)

/-- Spec wording (§4.4): select the top-N rules by a metric (default
N = 5) and expose only the (antecedent, consequent, support,
confidence) projection; to be compared with the code's display. -/
def specTopRules (rules : List Rule) (metric : String) (n : ℕ) :
    List (Finset ℕ × Finset ℕ × ℚ × ℚ) :=
  ((rules.mergeSort (fun a b => decide (metricValue b metric ≤ metricValue a metric))).take n).map
    (fun r => (r.antecedent, r.consequent, r.support, r.confidence))

/-- C3: for every input dataframe, `preprocess_data` keeps the column
list and the row/cell shape, encodes a cell as 1 exactly when the
source value is numeric and strictly greater than zero and as 0
otherwise (non-numeric and missing values are coerced to 0, not
dropped), and every output cell is 0 or 1. -/
theorem C3_preprocess_binarizes (df : DataFrame) :
    (preprocess_data df).cols = df.cols ∧
    (preprocess_data df).rows = df.rows.map (fun r => r.map specEncode) ∧
    (∀ v : Value, specEncode v = Value.num 0 ∨ specEncode v = Value.num 1) := by
  refine ⟨rfl, ?_, ?_⟩
  · rw [preprocess_rows]
    have he : encodeCell = specEncode := funext encodeCell_eq_specEncode
    rw [he]
  · intro v
    rw [specEncode]
    by_cases h : posNum v = true
    · rw [if_pos h]
      exact Or.inr rfl
    · rw [if_neg h]
      exact Or.inl rfl

theorem map_encodeCell_self {r : List Value} (h : ∀ v ∈ r, encodeCell v = v) :
    r.map encodeCell = r :=
  (List.map_congr_left h).trans (List.map_id r)

/-- C8: binarization is idempotent — `preprocess_data` on an already
binary dataframe returns it unchanged, and `preprocess_data` composed
with itself equals `preprocess_data` on every input dataframe. -/
theorem C8_preprocess_idempotent :
    (∀ df : DataFrame, isBinaryDf df = true → preprocess_data df = df) ∧
    (∀ df : DataFrame, preprocess_data (preprocess_data df) = preprocess_data df) := by
  constructor
  · intro df hbin
    obtain ⟨cols, rows⟩ := df
    rw [isBinaryDf] at hbin
    simp only [List.all_eq_true, Bool.or_eq_true, beq_iff_eq] at hbin
    show preprocess_data ⟨cols, rows⟩ = ⟨cols, rows⟩
    have hrows : (preprocess_data ⟨cols, rows⟩).rows = rows := by
      rw [preprocess_rows]
      refine (List.map_congr_left (fun r hr => ?_)).trans (List.map_id rows)
      refine map_encodeCell_self (fun v hv => ?_)
      rcases hbin r hr v hv with h0 | h1
      · rw [h0]
        rfl
      · rw [h1]
        rfl
    have hcols : (preprocess_data ⟨cols, rows⟩).cols = cols := rfl
    cases hp : preprocess_data ⟨cols, rows⟩
    rw [hp] at hrows hcols
    simp only at hrows hcols
    rw [hrows, hcols]
  · intro df
    have hrows : (preprocess_data (preprocess_data df)).rows = (preprocess_data df).rows := by
      rw [preprocess_rows (preprocess_data df), preprocess_rows df, List.map_map]
      refine List.map_congr_left (fun r _ => ?_)
      simp only [Function.comp, List.map_map]
      refine List.map_congr_left (fun v _ => ?_)
      exact encodeCell_idem v
    have hcols : (preprocess_data (preprocess_data df)).cols = (preprocess_data df).cols := rfl
    cases hp : preprocess_data (preprocess_data df)
    rw [hp] at hrows hcols
    simp only at hrows hcols
    cases hq : preprocess_data df
    rw [hq] at hrows hcols
    simp only at hrows hcols
    rw [hrows, hcols]

/-- C9: the miner rejects a support threshold of 0 or below with
`InvalidParameterError`, and on an empty basket matrix with a valid
threshold it returns the empty itemset collection, not an error. -/
theorem C9_apriori_edge_cases (m : List (List ℚ)) (n : ℕ) (σ : ℚ) :
    (σ ≤ 0 → apriori m n σ = .error .invalidParameter) ∧
    (0 < σ → apriori [] n σ = .ok []) := by
  constructor
  · intro h
    rw [apriori, if_pos h]
  · intro h
    rw [apriori_pos h]
    have hsup : ∀ s : Finset ℕ, support [] s = 0 := by
      intro s
      rw [support_eq_div]
      simp
    have hfil : (subsetsOfFinset (Finset.range n)).filter
        (fun s => decide (s.Nonempty ∧ σ ≤ support [] s)) = [] := by
      rw [List.filter_eq_nil_iff]
      intro s _
      rw [decide_eq_true_eq, not_and]
      intro _
      rw [hsup s]
      exact not_le.mpr h
    rw [hfil]
    rfl

/-- C4 counterexample: "lift" is one of the five recognized metric
names, yet the rule generator fails with `InvalidParameterError` on it
when the threshold is negative (spec §4.3: lift thresholds must be
≥ 0) — so the generator does not fail *exactly* when the metric name is
unrecognized. -/
theorem C4_counterexample_negative_threshold :
    "lift" ∈ validMetrics ∧
    association_rules [] "lift" (Rat.divInt (-1) 1) = .error .invalidParameter := by
  exact ⟨by decide, by decide⟩

/-- C4 amended: the rule generator accepts any of the five metric names
support, confidence, lift, leverage and conviction, and fails with
`InvalidParameterError` exactly when the metric name is not one of the
five or the threshold is outside the metric's valid range (for the
nonnegative metrics support, confidence and lift the threshold must be
≥ 0); for a recognized metric name with an in-range threshold it
returns a rule set. -/
theorem C4_metric_validation (L : List (Finset ℕ × ℚ)) (metric : String) (θ : ℚ) :
    (association_rules L metric θ = .error .invalidParameter ↔
      (metric ∉ validMetrics ∨ thresholdOk metric θ = false)) ∧
    (metric ∈ validMetrics → thresholdOk metric θ = true →
      ∃ R, association_rules L metric θ = .ok R) := by
  by_cases hc : validMetrics.contains metric = true
  · have hmem : metric ∈ validMetrics := List.elem_iff.mp hc
    by_cases ht : thresholdOk metric θ = true
    · constructor
      · rw [association_rules, if_pos hc, if_pos ht]
        constructor
        · intro h
          cases h
        · rintro (h | h)
          · exact absurd hmem h
          · rw [ht] at h
            cases h
      · intro _ _
        exact ⟨_, by rw [association_rules, if_pos hc, if_pos ht]⟩
    · have ht' : thresholdOk metric θ = false := Bool.eq_false_iff.mpr ht
      constructor
      · rw [association_rules, if_pos hc, if_neg ht]
        exact ⟨fun _ => Or.inr ht', fun _ => rfl⟩
      · intro _ h
        rw [ht'] at h
        cases h
  · have hmem : metric ∉ validMetrics := fun h => hc (List.elem_iff.mpr h)
    constructor
    · rw [association_rules, if_neg hc]
      exact ⟨fun _ => Or.inl hmem, fun _ => rfl⟩
    · intro h
      exact absurd h hmem

/-- C6: for every basket matrix and every minimum support threshold in
(0, 1], the miner succeeds and returns exactly the non-empty itemsets
over the matrix's columns whose support is at least the threshold
(boundary inclusive), each paired with its support. -/
theorem C6_apriori_exact (m : List (List ℚ)) (n : ℕ) (σ : ℚ)
    (h1 : 0 < σ) (h2 : σ ≤ 1) :
    ∃ L, apriori m n σ = .ok L ∧
      (∀ p : Finset ℕ × ℚ, p ∈ L → p.2 = support m p.1) ∧
      (∀ s : Finset ℕ, ((s, support m s) ∈ L ↔
        s ⊆ Finset.range n ∧ s.Nonempty ∧ σ ≤ support m s)) := by
  refine ⟨_, apriori_pos h1, ?_, ?_⟩
  · intro p hp
    exact ((mem_apriori (apriori_pos h1) p).mp hp).1
  · intro s
    rw [mem_apriori (apriori_pos h1)]
    simp

/-- The 2-transaction, 2-item example basket matrix: item 0 is in both
transactions, item 1 only in the first, so support({0,1}) = 1/2. -/
def exMatrix : List (List ℚ) := [[1, 1], [1, 0]]

/-- One half, in the kernel-evaluable `divInt` form. -/
def half : ℚ := Rat.divInt 1 2

/-- C6 witness: the boundary instance — with threshold exactly 1/2, the
itemset {0,1} of support 1/2 is retained. -/
theorem C6_witness :
    ∃ L, apriori exMatrix 2 half = .ok L ∧
      (∀ p : Finset ℕ × ℚ, p ∈ L → p.2 = support exMatrix p.1) ∧
      (∀ s : Finset ℕ, ((s, support exMatrix s) ∈ L ↔
        s ⊆ Finset.range 2 ∧ s.Nonempty ∧ half ≤ support exMatrix s)) :=
  C6_apriori_exact exMatrix 2 half (by decide) (by decide)

/-- C7: every rule produced by the mining composition (apriori followed
by rule generation) satisfies confidence = support(antecedent ∪
consequent) / support(antecedent) and lift = confidence /
support(consequent); the model computes the metrics exactly, so both
hold within the claimed 1e-9 tolerance. -/
theorem C7_rule_metrics (m : List (List ℚ)) (n : ℕ) (σ θ : ℚ) (metric : String)
    (R : List Rule) (r : Rule) (h1 : mineRules m n σ metric θ = .ok R) (h2 : r ∈ R) :
    |r.confidence - support m (r.antecedent ∪ r.consequent) / support m r.antecedent| ≤
      1 / 1000000000 ∧
    |r.lift - r.confidence / support m r.consequent| ≤ 1 / 1000000000 := by
  rw [mineRules] at h1
  cases happr : apriori m n σ with
  | error e =>
    rw [happr] at h1
    cases h1
  | ok L =>
    rw [happr] at h1
    obtain ⟨p, hpL, A, hAsub, hAne, hAneq, hrule⟩ := mem_association_rules h1 h2
    have hallL : ∀ q ∈ L, q.2 = support m q.1 := fun q hq => ((mem_apriori happr q).mp hq).1
    obtain ⟨hpval, hpsub, hpne, hpsup⟩ := (mem_apriori happr p).mp hpL
    have hAr : A ⊆ Finset.range n := hAsub.trans hpsub
    have hAsup : σ ≤ support m A := le_trans hpsup (support_mono m hAsub)
    have hsupA : supOf L A = support m A :=
      supOf_eq hallL ⟨support m A, (mem_apriori happr (A, support m A)).mpr ⟨rfl, hAr, hAne, hAsup⟩⟩
    have hCsub : p.1 \ A ⊆ p.1 := Finset.sdiff_subset
    have hCne : (p.1 \ A).Nonempty :=
      Finset.sdiff_nonempty.mpr (fun hss => hAneq (Finset.Subset.antisymm hAsub hss))
    have hCr : p.1 \ A ⊆ Finset.range n := hCsub.trans hpsub
    have hCsup : σ ≤ support m (p.1 \ A) := le_trans hpsup (support_mono m hCsub)
    have hsupC : supOf L (p.1 \ A) = support m (p.1 \ A) :=
      supOf_eq hallL ⟨support m (p.1 \ A),
        (mem_apriori happr (p.1 \ A, support m (p.1 \ A))).mpr ⟨rfl, hCr, hCne, hCsup⟩⟩
    have hunion : A ∪ p.1 \ A = p.1 := Finset.union_sdiff_of_subset hAsub
    subst hrule
    show |qdiv p.2 (supOf L A) - support m (A ∪ p.1 \ A) / support m A| ≤ 1 / 1000000000 ∧
      |qdiv (qdiv p.2 (supOf L A)) (supOf L (p.1 \ A)) -
        qdiv p.2 (supOf L A) / support m (p.1 \ A)| ≤ 1 / 1000000000
    rw [hunion, hsupA, hsupC, hpval, qdiv_eq, qdiv_eq]
    constructor
    · rw [sub_self, abs_zero]
      norm_num
    · rw [sub_self, abs_zero]
      norm_num

/-- The rule list the mining composition produces on `exMatrix` with
min support 1/2, metric "confidence", threshold 1/10. -/
def exMinedRules : List Rule :=
  (mineRules exMatrix 2 half "confidence" (Rat.divInt 1 10)).toOption.getD []

/-- The first of those rules ({0} → {1}, confidence 1/2). -/
def exMinedRule : Rule := exMinedRules.headD default

/-- C7 witness: the metric identities evaluated on a concrete mined
rule. -/
theorem C7_witness :
    |exMinedRule.confidence -
      support exMatrix (exMinedRule.antecedent ∪ exMinedRule.consequent) /
        support exMatrix exMinedRule.antecedent| ≤ 1 / 1000000000 ∧
    |exMinedRule.lift - exMinedRule.confidence / support exMatrix exMinedRule.consequent| ≤
      1 / 1000000000 :=
  C7_rule_metrics exMatrix 2 half (Rat.divInt 1 10) "confidence" exMinedRules exMinedRule
    (by decide) (by decide)

theorem encodeCell_ageCutVal (v : Value) : encodeCell (ageCutVal v) = Value.num 0 := by
  cases v with
  | num q =>
    simp only [ageCutVal]
    split_ifs <;> rfl
  | nan => rfl
  | str s => rfl

/-- Whether a cell is a non-numeric (string) value — the cells on which
`pd.cut` raises. -/
def isStrCell (v : Value) : Bool :=
  match v with
  | .str _ => true
  | _ => false

/-- Every Age cell of the dataframe is numeric or missing, so that
`pd.cut` does not raise on the Age column. -/
def ageCellsNumericOk (df : DataFrame) : Bool :=
  df.rows.all (fun r => ! isStrCell (r.getD (List.indexOf ("Age") df.cols) Value.nan))

/-- Either there is no Age column, or its cells are all numeric or
missing: exactly the uploads on which the Age Group binning cannot
raise. -/
def ageColumnSafe (df : DataFrame) : Bool :=
  ! df.cols.contains ("Age") || ageCellsNumericOk df

theorem ageCut_of_nonstr {v : Value} (h : isStrCell v = false) :
    ageCut v = .ok (ageCutVal v) := by
  cases v with
  | num q => rfl
  | nan => rfl
  | str s => cases h

theorem mapOrErr_eq_map {f : List Value → Except MiningError (List Value)}
    {g : List Value → List Value} {rows : List (List Value)}
    (h : ∀ r ∈ rows, f r = .ok (g r)) : mapOrErr f rows = .ok (rows.map g) := by
  induction rows with
  | nil => rfl
  | cons r rs ih =>
    have h1 : f r = .ok (g r) := h r (List.mem_cons_self r rs)
    have h2 : mapOrErr f rs = .ok (rs.map g) :=
      ih (fun t ht => h t (List.mem_cons_of_mem r ht))
    show (match f r, mapOrErr f rs with
      | .ok v, .ok vs => Except.ok (v :: vs)
      | .error e, _ => .error e
      | .ok _, .error e => .error e) = .ok ((r :: rs).map g)
    rw [h1, h2]
    rfl

theorem mapOrErr_ok {f : List Value → Except MiningError (List Value)}
    {rows : List (List Value)} (h : ∀ r ∈ rows, ∃ v, f r = .ok v) :
    ∃ rows', mapOrErr f rows = .ok rows' := by
  induction rows with
  | nil => exact ⟨[], rfl⟩
  | cons r rs ih =>
    obtain ⟨v, hv⟩ := h r (List.mem_cons_self r rs)
    obtain ⟨vs, hvs⟩ := ih (fun t ht => h t (List.mem_cons_of_mem r ht))
    refine ⟨v :: vs, ?_⟩
    show (match f r, mapOrErr f rs with
      | .ok v, .ok vs => Except.ok (v :: vs)
      | .error e, _ => .error e
      | .ok _, .error e => .error e) = .ok (v :: vs)
    rw [hv, hvs]

theorem setCol_ok {df : DataFrame} {name : String}
    {f : List Value → Except MiningError Value}
    (h : ∀ r ∈ df.rows, ∃ v, f r = .ok v) : ∃ data, setCol df name f = .ok data := by
  rw [setCol]
  by_cases hc : df.cols.contains name = true
  · rw [if_pos hc]
    have h' : ∀ r ∈ df.rows, ∃ v,
        (f r).map (fun w => r.set (List.indexOf name df.cols) w) = .ok v := by
      intro r hr
      obtain ⟨v, hv⟩ := h r hr
      exact ⟨r.set (List.indexOf name df.cols) v, by rw [hv]; rfl⟩
    obtain ⟨rows', hrows'⟩ := mapOrErr_ok h'
    exact ⟨_, by rw [hrows']; rfl⟩
  · rw [if_neg hc]
    have h' : ∀ r ∈ df.rows, ∃ v, (f r).map (fun w => r ++ [w]) = .ok v := by
      intro r hr
      obtain ⟨v, hv⟩ := h r hr
      exact ⟨r ++ [v], by rw [hv]; rfl⟩
    obtain ⟨rows', hrows'⟩ := mapOrErr_ok h'
    exact ⟨_, by rw [hrows']; rfl⟩

theorem prepareData_ok_of_safe {df : DataFrame} (h : ageColumnSafe df = true) :
    ∃ data, prepareData df = .ok data := by
  by_cases hc : df.cols.contains ("Age") = true
  · have hok : ageCellsNumericOk df = true := by
      rw [ageColumnSafe, hc] at h
      simpa using h
    rw [prepareData, if_pos hc, addAgeGroup]
    refine setCol_ok (fun r hr => ?_)
    have hr' := List.all_eq_true.mp hok r hr
    rw [Bool.not_eq_eq_eq_not, Bool.not_true] at hr'
    exact ⟨_, ageCut_of_nonstr hr'⟩
  · rw [prepareData, if_neg hc]
    exact ⟨df, rfl⟩

theorem prepareData_appends {df : DataFrame}
    (h1 : df.cols.contains ("Age") = true)
    (h2 : df.cols.contains ("Age Group") = false)
    (h3 : ageCellsNumericOk df = true) :
    prepareData df = .ok (DataFrame.mk (df.cols ++ ["Age Group"])
      (df.rows.map
        (fun r => r ++ [ageCutVal (r.getD (List.indexOf ("Age") df.cols) Value.nan)]))) := by
  rw [prepareData, if_pos h1, addAgeGroup, setCol,
    if_neg (by rw [h2]; exact Bool.false_ne_true)]
  have hmap : mapOrErr
      (fun r => (ageCut (r.getD (List.indexOf ("Age") df.cols) Value.nan)).map
        (fun v => r ++ [v])) df.rows =
      .ok (df.rows.map
        (fun r => r ++ [ageCutVal (r.getD (List.indexOf ("Age") df.cols) Value.nan)])) := by
    refine mapOrErr_eq_map (fun r hr => ?_)
    have hr' := List.all_eq_true.mp h3 r hr
    rw [Bool.not_eq_eq_eq_not, Bool.not_true] at hr'
    rw [ageCut_of_nonstr hr']
    rfl
  rw [hmap]
  rfl

/-- A dataset whose Age column holds a non-numeric entry, on which
`pd.cut` raises. -/
def exStrAgeDf : DataFrame := { cols := ["Age"], rows := [[Value.str "x"]] }

/-- C10 counterexample: on an upload whose Age column contains a
non-numeric value, the run ends in the uncaught pandas TypeError from
`pd.cut` — no Age Group column is derived and no basket matrix is
produced at all, contradicting the claim's unconditional conclusion. -/
theorem C10_counterexample_type_error :
    runPipeline exStrAgeDf (Rat.divInt 1 2) "confidence" (Rat.divInt 1 2) =
      .error .typeError := by
  decide

/-- C10 amended: when the uploaded dataset has an "Age" column, no
column already named "Age Group", and every Age cell numeric or
missing, the pipeline appends the derived categorical "Age Group"
column to the dataset before basket encoding, so the basket matrix
carries the extra "Age Group" item column and every encoded cell of
that column is 0 (bin labels and NaNs coerce to 0 during
binarization); an Age column containing a non-numeric value instead
makes `pd.cut` raise an uncaught TypeError and the run halts. -/
theorem C10_age_group_column (df : DataFrame)
    (h1 : df.cols.contains ("Age") = true)
    (h2 : df.cols.contains ("Age Group") = false)
    (h3 : ageCellsNumericOk df = true) :
    ∃ data, prepareData df = .ok data ∧
      (preprocess_data data).cols = df.cols ++ ["Age Group"] ∧
      (preprocess_data data).rows =
        df.rows.map (fun r => r.map encodeCell ++ [Value.num 0]) := by
  refine ⟨_, prepareData_appends h1 h2 h3, rfl, ?_⟩
  rw [preprocess_rows, List.map_map]
  refine List.map_congr_left (fun r _ => ?_)
  show ((r ++ [ageCutVal (r.getD (List.indexOf ("Age") df.cols) Value.nan)]).map encodeCell) =
    r.map encodeCell ++ [Value.num 0]
  rw [List.map_append, List.map_singleton, encodeCell_ageCutVal]

/-- A dataset whose Age column holds an in-range age, an out-of-range
age and a missing value. -/
def exAgeDf : DataFrame :=
  { cols := ["Age"], rows := [[Value.num 25], [Value.num 101], [Value.nan]] }

/-- C10 witness: the Age Group column is appended and binarizes to all
zeros on a concrete dataset with numeric and missing ages. -/
theorem C10_witness :
    ∃ data, prepareData exAgeDf = .ok data ∧
      (preprocess_data data).cols = exAgeDf.cols ++ ["Age Group"] ∧
      (preprocess_data data).rows =
        exAgeDf.rows.map (fun r => r.map encodeCell ++ [Value.num 0]) :=
  C10_age_group_column exAgeDf (by decide) (by decide) (by decide)

/-- An uploaded dataframe with no transaction-key column of any name
(its only column is "Foo"). -/
def exNoKeyDf : DataFrame := { cols := ["Foo"], rows := [[Value.num 2]] }

/-- C1 counterexample: on a dataframe lacking the required column the
run does not halt and does not report any SchemaError — it produces the
basket matrix, a non-empty itemset table and the (empty) rule table,
only setting the Sex/Age warnings. -/
theorem C1_counterexample_no_schema_error :
    runPipeline exNoKeyDf (Rat.divInt 1 2) "confidence" (Rat.divInt 1 2) =
      .ok { sexWarning := true, ageWarning := true,
            basket := { cols := ["Foo"], rows := [[Value.num 1]] },
            itemsets := [({0}, 1)], rules := [] } := by
  decide

/-- C1 amended: a missing column never yields a SchemaError — none
exists in the code — and never halts the run by itself: a missing "Sex"
or "Age" column only sets the corresponding warning flag.  For every
uploaded dataframe on which the Age Group binning cannot raise (no Age
column, or all Age cells numeric or missing) and every parameter
setting the sidebar controls can produce (min support in [0.01, 1],
metric one of the selectbox's three options, threshold in [0.1, 1]),
the run succeeds and produces the basket matrix, the itemset table and
the rule table.  (An Age column with a non-numeric cell is the one
remaining halt: an uncaught pandas TypeError, not a SchemaError.) -/
theorem C1_pipeline_never_halts (df : DataFrame) (σ θ : ℚ) (metric : String)
    (h1 : Rat.divInt 1 100 ≤ σ) (h2 : σ ≤ 1) (hm : metric ∈ uiMetrics)
    (h3 : Rat.divInt 1 10 ≤ θ) (h4 : θ ≤ 1) (h5 : ageColumnSafe df = true) :
    ∃ out, runPipeline df σ metric θ = .ok out ∧
      out.sexWarning = ! df.cols.contains ("Sex") ∧
      out.ageWarning = ! df.cols.contains ("Age") := by
  have h0 : (0 : ℚ) < Rat.divInt 1 100 := by decide
  have hσ : 0 < σ := lt_of_lt_of_le h0 h1
  obtain ⟨data, hdata⟩ := prepareData_ok_of_safe h5
  obtain ⟨F, hF⟩ : ∃ F, apriori (toMatrix (preprocess_data data))
      (preprocess_data data).cols.length σ = .ok F :=
    ⟨_, apriori_pos hσ⟩
  have hv : validMetrics.contains metric = true := by
    fin_cases hm <;> decide
  have hθ0 : (0 : ℚ) ≤ θ := le_trans (by decide) h3
  obtain ⟨R, hR⟩ : ∃ R, association_rules F metric θ = .ok R :=
    ⟨_, association_rules_of_valid hv (thresholdOk_of_nonneg hθ0)⟩
  refine ⟨{ sexWarning := ! df.cols.contains ("Sex"),
            ageWarning := ! df.cols.contains ("Age"),
            basket := preprocess_data data,
            itemsets := F, rules := R }, ?_, rfl, rfl⟩
  simp only [runPipeline, hdata, hF, hR]

/-- A dataframe carrying both of the charted columns and no rows. -/
def exSexAgeDf : DataFrame := { cols := ["Sex", "Age"], rows := [] }

/-- C1 witness for the amended claim at a concrete dataframe and
concrete slider values. -/
theorem C1_witness :
    ∃ out, runPipeline exSexAgeDf (Rat.divInt 1 2) "lift" (Rat.divInt 1 2) = .ok out ∧
      out.sexWarning = ! exSexAgeDf.cols.contains ("Sex") ∧
      out.ageWarning = ! exSexAgeDf.cols.contains ("Age") :=
  C1_pipeline_never_halts exSexAgeDf (Rat.divInt 1 2) (Rat.divInt 1 2) "lift"
    (by decide) (by decide) (by decide) (by decide) (by decide) (by decide)

/-- C2: rule generation on an empty frequent-itemset collection returns
the empty rule set without error — both directly and through the mining
composition at min support 1 on a dataset whose two transactions
differ — but the pipeline catches nothing: an error raised by the
mining call (here: a metric name outside the recognized set) becomes
the outcome of the whole run instead of a reported non-fatal message,
because src/index.py lines 163-177 wrap the calls in no handler. -/
theorem C2_empty_ok_but_nothing_caught :
    association_rules [] "confidence" (Rat.divInt 1 2) = .ok [] ∧
    mineRules [[1, 0], [0, 1]] 2 1 "confidence" (Rat.divInt 1 2) = .ok [] ∧
    runPipeline exNoKeyDf (Rat.divInt 1 2) "zhangs_metric" (Rat.divInt 1 2) =
      .error .invalidParameter := by
  refine ⟨by decide, by decide, by decide⟩

/-- Six distinct rules, to exercise the display path with more rows
than the claimed top-5 selection would show. -/
def exRules6 : List Rule :=
  [⟨{0}, {1}, 1, 1, 1, 0, 0⟩, ⟨{1}, {2}, 1, 1, 1, 0, 0⟩, ⟨{2}, {3}, 1, 1, 1, 0, 0⟩,
   ⟨{3}, {4}, 1, 1, 1, 0, 0⟩, ⟨{4}, {5}, 1, 1, 1, 0, 0⟩, ⟨{5}, {6}, 1, 1, 1, 0, 0⟩]

/-- C5 counterexample: with six generated rules the code displays all
six rows unchanged (every metric column included), while the claimed
top-5 four-field projection would have exactly five rows. -/
theorem C5_counterexample_no_top5 :
    (displayedRules exRules6).length = 6 ∧
    (specTopRules exRules6 "confidence" 5).length = 5 ∧
    displayedRules exRules6 = exRules6 := by
  refine ⟨rfl, ?_, rfl⟩
  rw [specTopRules, List.length_map, List.length_take, List.length_mergeSort]
  rfl

/-- C5 amended: the reporting view displays the rule table and the
itemset table whole and unprojected, and draws one network edge per
rule weighted by the rule's stored value of the chosen metric; it
performs no top-N truncation, no projection, no mutation of the rule
set, and no recomputation of any metric. -/
theorem C5_view_shows_everything (out : RunOutput) (metric : String) :
    reportView out metric =
      (out.rules, out.itemsets,
        out.rules.map (fun r => (r.antecedent, r.consequent, metricValue r metric))) ∧
    (displayedRules out.rules).length = out.rules.length ∧
    displayedItemsets out.itemsets = out.itemsets :=
  ⟨rfl, rfl, rfl⟩
